import Mathlib

/-!
The CBOR to JSON projection of `cbor_to_json.c`.

A shallow embedding of `src/cbor_to_json.c` (the SQLite extension
`cbor_to_json` / `cbor_to_json_tagged`) and theorems about it.

Conventions of the embedding.

* A C string or byte buffer is the list of its bytes (`Bytes`); a byte is a
  natural number below 256.  A buffer handed to a function reading a
  NUL-terminated string is read up to its first zero byte (`c_str`).
* A `uint64_t` is a natural number taken modulo `2 ^ 64` where the C code
  reads it; `int64_t` arithmetic wraps (`to_int64`).  The size of a map is a
  `size_t`: statements on the text of the surrogate keys are about fewer than
  `2 ^ 64` entries.
* A cJSON number holds a C `double`.  The program only ever computes doubles
  by converting 64-bit integers, so a double is kept by its exact integral
  value when it has one (`CDouble.integer`), and by its bit pattern otherwise.
* `cbor_to_cjson` is recursive; the embedding carries a bound `fuel` on the
  depth of the C call stack and answers `none` when the bound is exhausted.
  The function returns on an input exactly when some bound gives `some _`.
* Allocation is assumed to succeed.
-/

namespace CborToJson

/-! ## Data model -/

/-- Bytes of a C string or buffer, in order. -/
abbrev Bytes := List Nat

/-- The ASCII bytes of a string literal of the source. -/
def cstr (s : String) : Bytes := s.toList.map Char.toNat

/-- The C string stored at the start of a buffer: the bytes before the first
zero byte. -/
def c_str (buffer : Bytes) : Bytes := buffer.takeWhile (fun b => b != 0)

/-- A C `double`: `integer v` is the finite double whose value is the integer
`v`; `other bits` is any other double (a fraction, an infinity, a NaN), kept
by its IEEE-754 binary64 bit pattern. -/
inductive CDouble where
  | integer (value : Int)
  | other (bits : Nat)
  deriving DecidableEq, Repr

/-- The libcbor item tree (`cbor_item_t`), one constructor per shape that the
accessors used by `cbor_to_cjson` distinguish.  `uint` and `negint` hold what
`cbor_get_int` reads; `ctrl` is a float/control item of width `CBOR_FLOAT_0`
holding a simple value, `float` any other float/control item, holding what
`cbor_float_get_float` returns. -/
inductive CborItem where
  | uint (value : Nat)
  | negint (value : Nat)
  | bytestring (data : Bytes)
  | bytestring_chunked (chunks : List Bytes)
  | string (data : Bytes)
  | string_chunked (chunks : List Bytes)
  | array (items : List CborItem)
  | map (pairs : List (CborItem × CborItem))
  | tag (value : Nat) (item : CborItem)
  | ctrl (value : Nat)
  | float (value : CDouble)

/-- The cJSON tree.  An object is the list of its members in insertion order;
cJSON does not look for an existing member when one is added. -/
inductive cJSON where
  | Number (valuedouble : CDouble)
  | String (valuestring : Bytes)
  | Array (children : List cJSON)
  | Object (children : List (Bytes × cJSON))
  | Bool (value : Bool)
  | Null

/-! ## Integer conversions of C -/

/-- Conversion to `int64_t`: reduction modulo `2 ^ 64` into
`[-2 ^ 63, 2 ^ 63)`. -/
def to_int64 (n : Int) : Int := (n + 2 ^ 63) % 2 ^ 64 - 2 ^ 63

/-- Number of low bits of `n` that do not fit in a significand of 53 bits;
`fuel` bounds the count. -/
def excess_bits : Nat → Nat → Nat
  | 0, _ => 0
  | fuel + 1, n => if n < 2 ^ 53 then 0 else excess_bits fuel (n / 2) + 1

/-- The double nearest to a natural number (round to nearest, ties to even,
53 bits of significand). -/
def round_to_double (n : Nat) : Nat :=
  let s := excess_bits n n
  let q := n / 2 ^ s
  let r := n % 2 ^ s
  let half := 2 ^ (s - 1)
  if s = 0 then n
  else if r > half ∨ (r = half ∧ q % 2 = 1) then (q + 1) * 2 ^ s else q * 2 ^ s

/-- Implicit conversion of a `uint64_t` argument to `double`. -/
def uint64_to_double (n : Nat) : CDouble := .integer (round_to_double n)

/-- Implicit conversion of an `int64_t` argument to `double`. -/
def int64_to_double (v : Int) : CDouble :=
  .integer (if v < 0 then -(round_to_double v.natAbs : Int) else round_to_double v.natAbs)

/-! ## printf conversions -/

/-- Digits of `n` in base `base`, least significant first; `fuel` bounds their
number. -/
def digits_lsb (base : Nat) : Nat → Nat → List Nat
  | 0, _ => []
  | fuel + 1, n =>
    (n % base) :: (if n / base = 0 then [] else digits_lsb base fuel (n / base))

/-- The character of one digit: `0`-`9`, then lowercase `a`-`f`. -/
def digit_char (d : Nat) : Nat := if d < 10 then 48 + d else 87 + d

/-- What `printf` writes for an unsigned conversion without flags (`%zu` in
base 10, `%x` in base 16): the digits, most significant first, no padding. -/
def fmt_unsigned (base n : Nat) : Bytes :=
  (digits_lsb base (n + 1) n).reverse.map digit_char

/-- Bytes left in a buffer of `size` bytes by `snprintf`: the formatted text
cut to `size - 1` bytes, then the terminator. -/
def snprintf (size : Nat) (formatted : Bytes) : Bytes :=
  formatted.take (size - 1) ++ [0]

/-! ## cJSON constructors -/

/-- Number node from a double: `cJSON_CreateNumber`. -/
def cJSON_CreateNumber (num : CDouble) : cJSON := .Number num

/-- String node: `cJSON_CreateString` copies the NUL-terminated string found
at its argument. -/
def cJSON_CreateString (string : Bytes) : cJSON := .String (c_str string)

/-- Appends `item` to an array: `cJSON_AddItemToArray`. -/
def cJSON_AddItemToArray (array : cJSON) (item : cJSON) : cJSON :=
  match array with
  | .Array children => .Array (children ++ [item])
  | other => other

/-- Appends `item` under a copy of the NUL-terminated key `string`:
`cJSON_AddItemToObject`. -/
def cJSON_AddItemToObject (object : cJSON) (string : Bytes) (item : cJSON) : cJSON :=
  match object with
  | .Object children => .Object (children ++ [(c_str string, item)])
  | other => other

/-! ## libcbor serialisation of a byte string -/

/-- Big-endian bytes of `n` on `width` bytes. -/
def be_bytes (width n : Nat) : Bytes :=
  (List.range width).map (fun i => n / 256 ^ (width - 1 - i) % 256)

/-- Header of libcbor for an unsigned argument: `_cbor_encode_uint`
(`offset` carries the major type). -/
def cbor_encode_uint (value offset : Nat) : Bytes :=
  if value ≤ 23 then [value + offset]
  else if value ≤ 0xFF then [0x18 + offset, value]
  else if value ≤ 0xFFFF then (0x19 + offset) :: be_bytes 2 value
  else if value ≤ 0xFFFFFFFF then (0x1A + offset) :: be_bytes 4 value
  else (0x1B + offset) :: be_bytes 8 value

/-- Bytes that `cbor_serialize_alloc` of libcbor writes for a byte-string item
(RFC 8949, major type 2): header and payload for a definite one; the
indefinite start byte, the chunks so encoded and the break byte for a chunked
one.  Other items are not serialised by this program. -/
def cbor_serialize_alloc : CborItem → Bytes
  | .bytestring data => cbor_encode_uint data.length 0x40 ++ data
  | .bytestring_chunked chunks =>
    [0x5F] ++ (chunks.map (fun c => cbor_encode_uint c.length 0x40 ++ c)).flatten ++ [0xFF]
  | _ => []

/-! ## libcbor control values -/

/-- Simple value `CBOR_CTRL_FALSE` of libcbor. -/
def CBOR_CTRL_FALSE : Nat := 20
/-- Simple value `CBOR_CTRL_TRUE` of libcbor. -/
def CBOR_CTRL_TRUE : Nat := 21
/-- Simple value `CBOR_CTRL_NULL` of libcbor. -/
def CBOR_CTRL_NULL : Nat := 22

/-- Test `cbor_is_bool` on the simple value of a control item. -/
def cbor_is_bool (ctrl : Nat) : Bool := ctrl == CBOR_CTRL_FALSE || ctrl == CBOR_CTRL_TRUE

/-- Accessor `cbor_get_bool` on the simple value of a control item. -/
def cbor_get_bool (ctrl : Nat) : Bool := ctrl == CBOR_CTRL_TRUE

/-- Test `cbor_is_null` on the simple value of a control item. -/
def cbor_is_null (ctrl : Nat) : Bool := ctrl == CBOR_CTRL_NULL

/-! ## The program -/

/-- Text built by `to_hex_string` (lines 30-42): `0x`, then for each of the
first `length` bytes what `sprintf(p, "%x", str[i])` writes. -/
def to_hex_string (str : Bytes) (length : Nat) : Bytes :=
  cstr "0x" ++ ((str.take length).map (fun b => fmt_unsigned 16 (b % 256))).flatten

/-- Content of the buffer `key` when it reaches `cJSON_AddItemToObject`
(lines 84-95): the surrogate text written by `snprintf`, overwritten by the
first `key_length` bytes of the key and a terminator when the key is a string
of definite length. -/
def map_key (i : Nat) (key_item : CborItem) : Bytes :=
  let key := snprintf 128 (cstr "Surrogate key " ++ fmt_unsigned 10 i)
  match key_item with
  | .string data =>
    let key_length := if data.length > 127 then 127 else data.length
    data.take key_length ++ [0]
  | _ => key

/-- Loop of the array case (lines 76-78), over the elements still to visit. -/
def array_loop (project : CborItem → Option cJSON) : List CborItem → cJSON → Option cJSON
  | [], result => some result
  | item :: rest, result =>
    match project item with
    | none => none
    | some child => array_loop project rest (cJSON_AddItemToArray result child)

/-- Loop of the map case (lines 83-100), from index `i` over the pairs still to
visit. -/
def map_loop (project : CborItem → Option cJSON) :
    Nat → List (CborItem × CborItem) → cJSON → Option cJSON
  | _, [], result => some result
  | i, pair :: rest, result =>
    let key := map_key i pair.1
    match project pair.2 with
    | none => none
    | some child => map_loop project (i + 1) rest (cJSON_AddItemToObject result key child)

/-- Function `cbor_to_cjson` (lines 44-128).  `fuel` bounds the depth of the
call stack; `none` means the bound was reached before the call returned. -/
def cbor_to_cjson : Nat → CborItem → Bool → Option cJSON
  | 0, _, _ => none
  | fuel + 1, item, keep_tags =>
    match item with
    | .uint value => some (cJSON_CreateNumber (uint64_to_double (value % 2 ^ 64)))
    | .negint value =>
      some (cJSON_CreateNumber
        (int64_to_double (to_int64 (to_int64 (-1 * to_int64 (value % 2 ^ 64 : Nat)) - 1))))
    | .bytestring _ | .bytestring_chunked _ =>
      let output := cbor_serialize_alloc item
      let allocated := output.length
      let hex := to_hex_string output allocated
      some (cJSON_CreateString (hex ++ [0]))
    | .string data => some (cJSON_CreateString (data ++ [0]))
    | .string_chunked _ =>
      some (cJSON_CreateString (cstr "Unsupported CBOR item: Chunked string" ++ [0]))
    | .array items =>
      array_loop (fun child => cbor_to_cjson fuel child keep_tags) items (.Array [])
    | .map pairs =>
      map_loop (fun child => cbor_to_cjson fuel child keep_tags) 0 pairs (.Object [])
    | .tag tag_value tagged_item =>
      if keep_tags then
        let result := cJSON_AddItemToObject (.Object []) (cstr "tag" ++ [0])
          (cJSON_CreateNumber (uint64_to_double (tag_value % 2 ^ 64)))
        match cbor_to_cjson fuel tagged_item keep_tags with
        | none => none
        | some child => some (cJSON_AddItemToObject result (cstr "item" ++ [0]) child)
      else
        cbor_to_cjson fuel item keep_tags
    | .ctrl value =>
      if cbor_is_bool value then some (.Bool (cbor_get_bool value))
      else if cbor_is_null value then some .Null
      else some (cJSON_CreateString (cstr "Unsupported CBOR item: Control value" ++ [0]))
    | .float value => some (cJSON_CreateNumber value)

/-- Number of bytes that `to_hex_string` requests from `malloc` (line 32). -/
def to_hex_string_malloc (length : Nat) : Nat := 2 + 2 * length + 1

/-! ## The entry point -/

/-- Error code `CBOR_ERR_NONE` of libcbor (`enum cbor_error_code`). -/
def CBOR_ERR_NONE : Nat := 0
/-- Error code `CBOR_ERR_NOTENOUGHDATA` of libcbor. -/
def CBOR_ERR_NOTENOUGHDATA : Nat := 1
/-- Error code `CBOR_ERR_NODATA` of libcbor. -/
def CBOR_ERR_NODATA : Nat := 2
/-- Error code `CBOR_ERR_MALFORMATED` of libcbor. -/
def CBOR_ERR_MALFORMATED : Nat := 3
/-- Error code `CBOR_ERR_MEMERROR` of libcbor. -/
def CBOR_ERR_MEMERROR : Nat := 4
/-- Error code `CBOR_ERR_SYNTAXERROR` of libcbor. -/
def CBOR_ERR_SYNTAXERROR : Nat := 5

/-- A buffer obtained from `malloc` and filled by `sprintf`: the size
requested and the text written (its terminator not included). -/
structure Allocated where
  size : Nat
  text : Bytes
  deriving DecidableEq, Repr

/-- Function `encode_cbor_error` (lines 130-158); `none` is the `NULL` that
the default branch returns. -/
def encode_cbor_error (code : Nat) : Option Allocated :=
  let prefix_len := 9
  if code = CBOR_ERR_NOTENOUGHDATA then
    some ⟨prefix_len + 13 + 1, cstr "CBOR_ERR_NOTENOUGHDATA"⟩
  else if code = CBOR_ERR_NODATA then
    some ⟨prefix_len + 6 + 1, cstr "CBOR_ERR_NODATA"⟩
  else if code = CBOR_ERR_MALFORMATED then
    some ⟨prefix_len + 11 + 1, cstr "CBOR_ERR_MALFORMATED"⟩
  else if code = CBOR_ERR_MEMERROR then
    some ⟨prefix_len + 8 + 1, cstr "CBOR_ERR_MEMERROR"⟩
  else if code = CBOR_ERR_SYNTAXERROR then
    some ⟨prefix_len + 11 + 1, cstr "CBOR_ERR_NODATA"⟩
  else none

/-- One observable step of a call of the entry point: a result handed to
SQLite, or an invocation of the projector (`none` is the `NULL` pointer). -/
inductive Event where
  | sqlite3_result_error (msg : Bytes)
  | call_cbor_to_cjson (item : Option CborItem) (keep_tags : Bool)
  | sqlite3_result_text64 (text : Bytes)

/-- How a call of the entry point ends. -/
inductive Outcome where
  | returned
  | null_dereference
  | out_of_fuel
  deriving DecidableEq, Repr

/-- Function `cbor_to_json` (lines 160-188), from what `cbor_load` produced:
the item pointer (`none` is `NULL`, which libcbor returns on failure) and
`result.error.code`.  `print` stands for `cJSON_PrintUnformatted`.  The value
is the sequence of observable steps and the way the call ends;
`cbor_to_cjson` starts with `cbor_typeof(item)`, which reads through the
pointer. -/
def cbor_to_json (fuel : Nat) (print : cJSON → Bytes) (keep_tags : Bool)
    (item : Option CborItem) (error_code : Nat) : List Event × Outcome :=
  let reported : List Event :=
    if error_code ≠ CBOR_ERR_NONE then
      match encode_cbor_error error_code with
      | some err_msg => [.sqlite3_result_error (c_str (err_msg.text ++ [0]))]
      | none => [.sqlite3_result_error (c_str (cstr "Failed to decode CBOR" ++ [0]))]
    else []
  let called := reported ++ [.call_cbor_to_cjson item keep_tags]
  match item with
  | none => (called, .null_dereference)
  | some root =>
    match cbor_to_cjson fuel root keep_tags with
    | none => (called, .out_of_fuel)
    | some cjson_item =>
      let json_string := print cjson_item
      (called ++ [.sqlite3_result_text64 (c_str (json_string ++ [0]))], .returned)

/-! ## Vocabulary of the statements -/

/-- Keys of the members of an object, in order (empty for any other node). -/
def object_keys : cJSON → List Bytes
  | .Object children => children.map Prod.fst
  | _ => []

/-- Test of line 87-88: the item is a string and is definite. -/
def is_definite_string : CborItem → Bool
  | .string _ => true
  | _ => false

/-- The surrogate key of entry `i`: the text `Surrogate key `, then `i` in
decimal. -/
def surrogate_key (i : Nat) : Bytes := cstr "Surrogate key " ++ fmt_unsigned 10 i

/-- Key of the member for entry `i` of a map, in the words of the key policy
read on C strings: the first `min(len, 127)` bytes of the content of a text
key of definite length, up to their first zero byte; the surrogate key of `i`
for any other key. -/
def spec_map_key (i : Nat) (key_item : CborItem) : Bytes :=
  match key_item with
  | .string data => (data.take (min data.length 127)).takeWhile (fun b => b != 0)
  | _ => surrogate_key i

/-- The five error kinds that `encode_cbor_error` has a case for. -/
def recognised_errors : List Nat :=
  [CBOR_ERR_NOTENOUGHDATA, CBOR_ERR_NODATA, CBOR_ERR_MALFORMATED, CBOR_ERR_MEMERROR,
    CBOR_ERR_SYNTAXERROR]

mutual
/-- Whether the tree holds no tagged node anywhere, map keys included. -/
def tag_free : CborItem → Bool
  | .array items => tag_free_list items
  | .map pairs => tag_free_pairs pairs
  | .tag _ _ => false
  | _ => true
/-- Whether no tree of the list holds a tagged node. -/
def tag_free_list : List CborItem → Bool
  | [] => true
  | item :: rest => tag_free item && tag_free_list rest
/-- Whether no key and no value of the pairs holds a tagged node. -/
def tag_free_pairs : List (CborItem × CborItem) → Bool
  | [] => true
  | (key, value) :: rest => tag_free key && tag_free value && tag_free_pairs rest
end

/-! ## Helper lemmas -/

theorem to_int64_of_range (n : Int) (hlo : -2 ^ 63 ≤ n) (hhi : n < 2 ^ 63) : to_int64 n = n := by
  unfold to_int64
  omega

theorem excess_bits_of_lt (fuel n : Nat) (h : n < 2 ^ 53) : excess_bits fuel n = 0 := by
  cases fuel with
  | zero => rfl
  | succ k =>
    show (if n < 2 ^ 53 then 0 else excess_bits k (n / 2) + 1) = 0
    rw [if_pos h]

/-- Every natural number up to `2 ^ 53` is a double. -/
theorem round_to_double_of_le (n : Nat) (h : n ≤ 2 ^ 53) : round_to_double n = n := by
  rcases Nat.lt_or_ge n (2 ^ 53) with hlt | hge
  · simp [round_to_double, excess_bits_of_lt n n hlt]
  · have : n = 2 ^ 53 := Nat.le_antisymm h hge
    subst this
    rfl

/-- The tag case with `keep_tags = false` calls itself on the same node, so no
bound on the stack depth lets it return. -/
theorem cbor_to_cjson_tag_discard (fuel tag_value : Nat) (tagged_item : CborItem) :
    cbor_to_cjson fuel (.tag tag_value tagged_item) false = none := by
  induction fuel with
  | zero => rfl
  | succ k ih => simpa [cbor_to_cjson] using ih

theorem c_str_takeWhile (l : Bytes) : c_str (l ++ [0]) = l.takeWhile (fun b => b != 0) := by
  induction l with
  | nil => rfl
  | cons a t ih =>
    simp only [c_str] at ih ⊢
    by_cases ha : a = 0
    · simp [List.takeWhile_cons, ha]
    · simp [List.takeWhile_cons, ha, ih]

theorem c_str_append_zero (l : Bytes) (h : ∀ b ∈ l, b ≠ 0) : c_str (l ++ [0]) = l := by
  rw [c_str_takeWhile, List.takeWhile_eq_self_iff]
  intro b hb
  simpa using h b hb

theorem cbor_to_cjson_uint (fuel : Nat) (keep_tags : Bool) (n : Nat) :
    cbor_to_cjson (fuel + 1) (.uint n) keep_tags
      = some (.Number (.integer (round_to_double (n % 2 ^ 64)))) := rfl

theorem cbor_to_cjson_negint (fuel : Nat) (keep_tags : Bool) (m : Nat) :
    cbor_to_cjson (fuel + 1) (.negint m) keep_tags
      = some (.Number (int64_to_double
          (to_int64 (to_int64 (-1 * to_int64 (m % 2 ^ 64 : Nat)) - 1)))) := rfl

theorem cbor_to_cjson_string (fuel : Nat) (keep_tags : Bool) (s : Bytes) :
    cbor_to_cjson (fuel + 1) (.string s) keep_tags = some (.String (c_str (s ++ [0]))) := rfl

theorem digits_lsb_length (base : Nat) (hb : 2 ≤ base) :
    ∀ (fuel n e : Nat), n < base ^ (e + 1) → (digits_lsb base fuel n).length ≤ e + 1 := by
  intro fuel
  induction fuel with
  | zero => intro n e _; simp [digits_lsb]
  | succ k ih =>
    intro n e hn
    by_cases hq : n / base = 0
    · simp [digits_lsb, hq]
    · have hbpos : 0 < base := by omega
      have hnb : base ≤ n := by
        by_contra hlt
        exact hq (Nat.div_eq_of_lt (by omega))
      cases e with
      | zero => simp at hn; omega
      | succ e' =>
        have hlt : n / base < base ^ (e' + 1) := by
          rw [Nat.div_lt_iff_lt_mul hbpos]
          calc n < base ^ (e' + 1 + 1) := hn
            _ = base ^ (e' + 1) * base := by rw [pow_succ]
        have := ih (n / base) e' hlt
        simp [digits_lsb, hq]
        omega

theorem digits_lsb_value (base : Nat) (hb : 2 ≤ base) :
    ∀ (fuel n : Nat), n < fuel → Nat.ofDigits base (digits_lsb base fuel n) = n := by
  intro fuel
  induction fuel with
  | zero => intro n h; omega
  | succ k ih =>
    intro n hn
    by_cases hq : n / base = 0
    · have hlt : n < base := by
        by_contra hge
        have : 0 < n / base := Nat.div_pos (by omega) (by omega)
        omega
      simp [digits_lsb, hq, Nat.ofDigits, Nat.mod_eq_of_lt hlt]
    · have hpos : 0 < n := by
        rcases Nat.eq_zero_or_pos n with h0 | h0
        · subst h0; simp at hq
        · exact h0
      have hdiv : n / base < k := by
        have : n / base < n := Nat.div_lt_self hpos (by omega)
        omega
      have := ih (n / base) hdiv
      simp [digits_lsb, hq, Nat.ofDigits_cons, this]
      exact Nat.mod_add_div n base

theorem digit_char_injective : Function.Injective digit_char := by
  intro a b h
  unfold digit_char at h
  split_ifs at h <;> omega

theorem fmt_unsigned_injective (base : Nat) (hb : 2 ≤ base) :
    Function.Injective (fmt_unsigned base) := by
  intro a b h
  unfold fmt_unsigned at h
  have h1 := List.map_injective_iff.mpr digit_char_injective h
  have h2 := List.reverse_injective h1
  have ha := digits_lsb_value base hb (a + 1) a (by omega)
  have hb' := digits_lsb_value base hb (b + 1) b (by omega)
  rw [← ha, ← hb', h2]

theorem fmt_unsigned_ne_zero (base n : Nat) : ∀ b ∈ fmt_unsigned base n, b ≠ 0 := by
  intro b hb
  unfold fmt_unsigned at hb
  rw [List.mem_map] at hb
  obtain ⟨d, _, rfl⟩ := hb
  unfold digit_char
  split_ifs <;> omega

theorem fmt_unsigned_length (n : Nat) (h : n < 2 ^ 64) : (fmt_unsigned 10 n).length ≤ 20 := by
  unfold fmt_unsigned
  rw [List.length_map, List.length_reverse]
  exact digits_lsb_length 10 (by decide) (n + 1) n 19 (by norm_num; omega)

theorem surrogate_key_injective : Function.Injective surrogate_key := by
  intro a b h
  unfold surrogate_key at h
  exact fmt_unsigned_injective 10 (by decide) (List.append_cancel_left h)

theorem surrogate_key_ne_zero (i : Nat) : ∀ b ∈ surrogate_key i, b ≠ 0 := by
  intro b hb
  unfold surrogate_key at hb
  rw [List.mem_append] at hb
  rcases hb with hb | hb
  · revert b
    decide
  · exact fmt_unsigned_ne_zero 10 i b hb

theorem surrogate_key_length (i : Nat) (h : i < 2 ^ 64) : (surrogate_key i).length ≤ 34 := by
  unfold surrogate_key
  rw [List.length_append]
  have := fmt_unsigned_length i h
  have h14 : (cstr "Surrogate key ").length = 14 := by decide
  omega

theorem c_str_map_key (i : Nat) (key_item : CborItem) (h : i < 2 ^ 64) :
    c_str (map_key i key_item) = spec_map_key i key_item := by
  have hs : c_str (snprintf 128 (cstr "Surrogate key " ++ fmt_unsigned 10 i)) = surrogate_key i := by
    show c_str (List.take (128 - 1) (surrogate_key i) ++ [0]) = surrogate_key i
    rw [List.take_of_length_le (by have := surrogate_key_length i h; omega)]
    exact c_str_append_zero _ (surrogate_key_ne_zero i)
  cases key_item with
  | string data =>
    show c_str (data.take (if data.length > 127 then 127 else data.length) ++ [0]) = _
    rw [c_str_takeWhile]
    have : (if data.length > 127 then 127 else data.length) = min data.length 127 := by
      split_ifs <;> omega
    rw [this]
    rfl
  | _ => exact hs


theorem map_loop_object (project : CborItem → Option cJSON) :
    ∀ (rest : List (CborItem × CborItem)) (values : List cJSON) (i : Nat)
      (acc : List (Bytes × cJSON)),
      i + rest.length ≤ 2 ^ 64 →
      List.Forall₂ (fun pair value => project pair.2 = some value) rest values →
      map_loop project i rest (.Object acc)
        = some (.Object (acc ++ List.zipWith
            (fun ip value => (spec_map_key ip.1 ip.2.1, value)) (rest.enumFrom i) values)) := by
  intro rest values i acc hsize hvalues
  induction hvalues generalizing i acc with
  | nil => simp [map_loop]
  | @cons pair value rest values hhead _ ih =>
    have hi : i < 2 ^ 64 := by rw [List.length_cons] at hsize; omega
    have hrest : i + 1 + rest.length ≤ 2 ^ 64 := by rw [List.length_cons] at hsize; omega
    simp only [map_loop, hhead, cJSON_AddItemToObject, c_str_map_key i pair.1 hi]
    rw [ih (i + 1) _ hrest]
    simp [List.enumFrom_cons]

theorem map_loop_keys (project : CborItem → Option cJSON) :
    ∀ (rest : List (CborItem × CborItem)) (i : Nat) (acc : List (Bytes × cJSON)) (obj : cJSON),
      i + rest.length ≤ 2 ^ 64 →
      map_loop project i rest (.Object acc) = some obj →
      object_keys obj
        = acc.map Prod.fst ++ (rest.enumFrom i).map (fun ip => spec_map_key ip.1 ip.2.1) := by
  intro rest
  induction rest with
  | nil =>
    intro i acc obj _ h
    simp only [map_loop, Option.some.injEq] at h
    subst h
    simp [object_keys]
  | cons pair rest ih =>
    intro i acc obj hsize h
    have hi : i < 2 ^ 64 := by rw [List.length_cons] at hsize; omega
    have hrest : i + 1 + rest.length ≤ 2 ^ 64 := by rw [List.length_cons] at hsize; omega
    cases hp : project pair.2 with
    | none => simp [map_loop, hp] at h
    | some child =>
      simp only [map_loop, hp, cJSON_AddItemToObject, c_str_map_key i pair.1 hi] at h
      rw [ih (i + 1) _ obj hrest h]
      simp [List.enumFrom_cons]

theorem spec_map_key_of_not_string (i : Nat) (key_item : CborItem)
    (h : is_definite_string key_item = false) : spec_map_key i key_item = surrogate_key i := by
  cases key_item <;> first | rfl | (simp [is_definite_string] at h)

theorem surrogate_keys_nodup :
    ∀ (rest : List (CborItem × CborItem)) (i : Nat),
      let keys := (rest.enumFrom i).map (fun ip => spec_map_key ip.1 ip.2.1)
      let kept := ((rest.zip keys).filter (fun pk => !is_definite_string pk.1.1)).map Prod.snd
      kept.Nodup ∧ ∀ key ∈ kept, ∃ j, i ≤ j ∧ key = surrogate_key j := by
  intro rest
  induction rest with
  | nil => intro i; simp
  | cons pair rest ih =>
    intro i
    obtain ⟨hnodup, hform⟩ := ih (i + 1)
    simp only [List.enumFrom_cons, List.map_cons, List.zip_cons_cons, List.filter_cons]
    by_cases hdef : is_definite_string pair.1 = true
    · simp only [hdef, Bool.not_true, Bool.false_eq_true, if_false]
      refine ⟨hnodup, fun key hkey => ?_⟩
      obtain ⟨j, hj, hk⟩ := hform key hkey
      exact ⟨j, by omega, hk⟩
    · have hdef' : is_definite_string pair.1 = false := by simpa using hdef
      have hkey : spec_map_key i pair.1 = surrogate_key i :=
        spec_map_key_of_not_string i pair.1 hdef'
      simp only [hdef', Bool.not_false, if_true, List.map_cons, hkey, List.nodup_cons,
        List.mem_cons]
      refine ⟨⟨fun hmem => ?_, hnodup⟩, fun key hk => ?_⟩
      · obtain ⟨j, hj, hk⟩ := hform _ hmem
        have := surrogate_key_injective hk
        omega
      · rcases hk with rfl | hk
        · exact ⟨i, le_refl i, rfl⟩
        · obtain ⟨j, hj, hk'⟩ := hform key hk
          exact ⟨j, by omega, hk'⟩

theorem array_loop_returns (project : CborItem → Option cJSON) :
    ∀ (items : List CborItem) (result : cJSON),
      (∀ item ∈ items, ∃ child, project item = some child) →
      ∃ array, array_loop project items result = some array := by
  intro items
  induction items with
  | nil => intro result _; exact ⟨result, rfl⟩
  | cons item rest ih =>
    intro result h
    obtain ⟨child, hchild⟩ := h item (List.mem_cons_self item rest)
    simp only [array_loop, hchild]
    exact ih _ (fun c hc => h c (List.mem_cons_of_mem item hc))

theorem map_loop_returns (project : CborItem → Option cJSON) :
    ∀ (pairs : List (CborItem × CborItem)) (i : Nat) (result : cJSON),
      (∀ pair ∈ pairs, ∃ child, project pair.2 = some child) →
      ∃ object, map_loop project i pairs result = some object := by
  intro pairs
  induction pairs with
  | nil => intro i result _; exact ⟨result, rfl⟩
  | cons pair rest ih =>
    intro i result h
    obtain ⟨child, hchild⟩ := h pair (List.mem_cons_self pair rest)
    simp only [map_loop, hchild]
    exact ih _ _ (fun c hc => h c (List.mem_cons_of_mem pair hc))

/-- With `keep_tags = true` the projection returns on every tree: a stack
depth of the size of the tree is enough. -/
theorem cbor_to_cjson_keep_tags_returns :
    ∀ (fuel : Nat) (item : CborItem), sizeOf item ≤ fuel →
      ∃ json, cbor_to_cjson fuel item true = some json := by
  intro fuel
  induction fuel with
  | zero =>
    intro item h
    cases item <;> simp at h
  | succ k ih =>
    intro item h
    cases item with
    | uint value => exact ⟨_, rfl⟩
    | negint value => exact ⟨_, rfl⟩
    | bytestring data => exact ⟨_, rfl⟩
    | bytestring_chunked chunks => exact ⟨_, rfl⟩
    | string data => exact ⟨_, rfl⟩
    | string_chunked chunks => exact ⟨_, rfl⟩
    | array items =>
      simp only [CborItem.array.sizeOf_spec] at h
      refine array_loop_returns _ items _ (fun c hc => ih c ?_)
      have := List.sizeOf_lt_of_mem hc
      omega
    | map pairs =>
      simp only [CborItem.map.sizeOf_spec] at h
      refine map_loop_returns _ pairs 0 _ (fun p hp => ih p.2 ?_)
      have h1 := List.sizeOf_lt_of_mem hp
      have h2 : sizeOf p.2 < sizeOf p := by
        rcases p with ⟨a, b⟩
        simp only [Prod.mk.sizeOf_spec]
        omega
      omega
    | tag tag_value tagged_item =>
      simp only [CborItem.tag.sizeOf_spec] at h
      obtain ⟨child, hchild⟩ := ih tagged_item (by omega)
      refine ⟨cJSON_AddItemToObject
        (cJSON_AddItemToObject (.Object []) (cstr "tag" ++ [0])
          (cJSON_CreateNumber (uint64_to_double (tag_value % 2 ^ 64))))
        (cstr "item" ++ [0]) child, ?_⟩
      simp only [cbor_to_cjson, hchild, if_true]
    | ctrl value =>
      simp only [cbor_to_cjson]
      split_ifs <;> exact ⟨_, rfl⟩
    | float value => exact ⟨_, rfl⟩

theorem array_loop_elements (project : CborItem → Option cJSON) :
    ∀ (items : List CborItem) (values : List cJSON) (acc : List cJSON),
      List.Forall₂ (fun item value => project item = some value) items values →
      array_loop project items (.Array acc) = some (.Array (acc ++ values)) := by
  intro items values acc h
  induction h generalizing acc with
  | nil => simp [array_loop]
  | @cons item value items values hhead _ ih =>
    simp only [array_loop, hhead, cJSON_AddItemToArray]
    rw [ih]
    simp

theorem array_loop_congr (f g : CborItem → Option cJSON) :
    ∀ (items : List CborItem) (result : cJSON),
      (∀ item ∈ items, f item = g item) →
      array_loop f items result = array_loop g items result := by
  intro items
  induction items with
  | nil => intro result _; rfl
  | cons item rest ih =>
    intro result h
    have hhead : f item = g item := h item (List.mem_cons_self item rest)
    have htail : ∀ c ∈ rest, f c = g c := fun c hc => h c (List.mem_cons_of_mem item hc)
    simp only [array_loop, hhead]
    cases g item with
    | none => rfl
    | some child => exact ih _ htail

theorem map_loop_congr (f g : CborItem → Option cJSON) :
    ∀ (pairs : List (CborItem × CborItem)) (i : Nat) (result : cJSON),
      (∀ pair ∈ pairs, f pair.2 = g pair.2) →
      map_loop f i pairs result = map_loop g i pairs result := by
  intro pairs
  induction pairs with
  | nil => intro i result _; rfl
  | cons pair rest ih =>
    intro i result h
    have hhead : f pair.2 = g pair.2 := h pair (List.mem_cons_self pair rest)
    have htail : ∀ p ∈ rest, f p.2 = g p.2 := fun p hp => h p (List.mem_cons_of_mem pair hp)
    simp only [map_loop, hhead]
    cases g pair.2 with
    | none => rfl
    | some child => exact ih _ _ htail

theorem tag_free_of_mem_list :
    ∀ (items : List CborItem), tag_free_list items = true →
      ∀ item ∈ items, tag_free item = true := by
  intro items
  induction items with
  | nil => intro _ item h; cases h
  | cons head rest ih =>
    intro h item hmem
    simp only [tag_free_list, Bool.and_eq_true] at h
    rcases List.mem_cons.mp hmem with rfl | hrest
    · exact h.1
    · exact ih h.2 item hrest

theorem tag_free_of_mem_pairs :
    ∀ (pairs : List (CborItem × CborItem)), tag_free_pairs pairs = true →
      ∀ pair ∈ pairs, tag_free pair.2 = true := by
  intro pairs
  induction pairs with
  | nil => intro _ pair h; cases h
  | cons head rest ih =>
    intro h pair hmem
    rcases head with ⟨key, value⟩
    simp only [tag_free_pairs, Bool.and_eq_true] at h
    rcases List.mem_cons.mp hmem with rfl | hrest
    · exact h.1.2
    · exact ih h.2 pair hrest

theorem cbor_to_cjson_keep_tags_irrelevant :
    ∀ (fuel : Nat) (item : CborItem), tag_free item = true →
      cbor_to_cjson fuel item true = cbor_to_cjson fuel item false := by
  intro fuel
  induction fuel with
  | zero => intro item _; rfl
  | succ k ih =>
    intro item h
    cases item with
    | array items =>
      have hitems : tag_free_list items = true := by simpa [tag_free] using h
      exact array_loop_congr _ _ items _
        (fun c hc => ih c (tag_free_of_mem_list items hitems c hc))
    | map pairs =>
      have hpairs : tag_free_pairs pairs = true := by simpa [tag_free] using h
      exact map_loop_congr _ _ pairs 0 _
        (fun p hp => ih p.2 (tag_free_of_mem_pairs pairs hpairs p hp))
    | tag tag_value tagged_item => simp [tag_free] at h
    | _ => rfl

theorem fmt_unsigned_byte_length (b : Nat) : (fmt_unsigned 16 (b % 256)).length ≤ 2 := by
  unfold fmt_unsigned
  rw [List.length_map, List.length_reverse]
  exact digits_lsb_length 16 (by decide) (b % 256 + 1) (b % 256) 1
    (by have := Nat.mod_lt b (by decide : 0 < 256); omega)

theorem hex_digits_length (bytes : Bytes) :
    ((bytes.map (fun b => fmt_unsigned 16 (b % 256))).flatten).length ≤ 2 * bytes.length := by
  induction bytes with
  | nil => simp
  | cons b rest ih =>
    have hb := fmt_unsigned_byte_length b
    simp only [List.map_cons, List.flatten_cons, List.length_append, List.length_cons]
    omega

theorem c_str_map_key_length (i : Nat) (key_item : CborItem) :
    (c_str (map_key i key_item)).length ≤ 127 := by
  have hs : (c_str (snprintf 128 (cstr "Surrogate key " ++ fmt_unsigned 10 i))).length ≤ 127 := by
    unfold snprintf
    rw [c_str_takeWhile]
    calc (List.takeWhile (fun b => b != 0)
            (List.take (128 - 1) (cstr "Surrogate key " ++ fmt_unsigned 10 i))).length
        ≤ (List.take (128 - 1) (cstr "Surrogate key " ++ fmt_unsigned 10 i)).length :=
          (List.takeWhile_sublist _).length_le
      _ ≤ 127 := by rw [List.length_take]; omega
  cases key_item with
  | string data =>
    show (c_str (data.take (if data.length > 127 then 127 else data.length) ++ [0])).length ≤ 127
    rw [c_str_takeWhile]
    calc (List.takeWhile (fun b => b != 0)
            (data.take (if data.length > 127 then 127 else data.length))).length
        ≤ (data.take (if data.length > 127 then 127 else data.length)).length :=
          (List.takeWhile_sublist _).length_le
      _ ≤ 127 := by rw [List.length_take]; split_ifs <;> omega
  | _ => exact hs

theorem map_loop_members (project : CborItem → Option cJSON) :
    ∀ (rest : List (CborItem × CborItem)) (values : List cJSON) (i : Nat)
      (acc : List (Bytes × cJSON)),
      List.Forall₂ (fun pair value => project pair.2 = some value) rest values →
      map_loop project i rest (.Object acc)
        = some (.Object (acc ++ List.zipWith
            (fun ip value => (c_str (map_key ip.1 ip.2.1), value)) (rest.enumFrom i) values)) := by
  intro rest values i acc hvalues
  induction hvalues generalizing i acc with
  | nil => simp [map_loop]
  | @cons pair value rest values hhead _ ih =>
    simp only [map_loop, hhead, cJSON_AddItemToObject]
    rw [ih (i + 1) _]
    simp [List.enumFrom_cons]

theorem map_members_shape :
    ∀ (rest : List (CborItem × CborItem)) (values : List cJSON) (i : Nat)
      (project : CborItem → Option cJSON),
      List.Forall₂ (fun pair value => project pair.2 = some value) rest values →
      (List.zipWith (fun (ip : Nat × CborItem × CborItem) (value : cJSON) =>
          (c_str (map_key ip.1 ip.2.1), value)) (rest.enumFrom i) values).length = rest.length ∧
      (List.zipWith (fun (ip : Nat × CborItem × CborItem) (value : cJSON) =>
          (c_str (map_key ip.1 ip.2.1), value)) (rest.enumFrom i) values).map Prod.snd = values ∧
      ∀ member ∈ List.zipWith (fun (ip : Nat × CborItem × CborItem) (value : cJSON) =>
          (c_str (map_key ip.1 ip.2.1), value)) (rest.enumFrom i) values,
        member.1.length ≤ 127 := by
  intro rest values i project h
  induction h generalizing i with
  | nil => simp
  | @cons pair value rest values _ _ ih =>
    obtain ⟨hlen, hsnd, hkeys⟩ := ih (i + 1)
    simp only [List.enumFrom_cons, List.zipWith_cons_cons, List.length_cons, List.map_cons,
      List.mem_cons]
    refine ⟨by rw [hlen], by rw [hsnd], fun member hmem => ?_⟩
    rcases hmem with rfl | hmem
    · exact c_str_map_key_length i pair.1
    · exact hkeys member hmem

/-! ## Tagged values with `keep_tags = false` (C1, C2) -/

/-- C1, at the spec's example (tag 2 wrapping the unsigned integer 100, tags
discarded) and at every tagged node: the wrapped child 100 projects to the
number 100, but the call on a tagged node returns under no bound on the stack
depth, because line 116 calls `cbor_to_cjson` on `item` again. -/
theorem cbor_to_cjson_tag_discard_never_returns :
    cbor_to_cjson 1 (.uint 100) false = some (.Number (.integer 100)) ∧
    (∀ fuel, cbor_to_cjson fuel (.tag 2 (.uint 100)) false = none) ∧
    ∀ fuel tag_value tagged_item,
      cbor_to_cjson fuel (.tag tag_value tagged_item) false = none :=
  ⟨rfl, fun fuel => cbor_to_cjson_tag_discard fuel 2 (.uint 100), cbor_to_cjson_tag_discard⟩

/-- C2, at the array of 1 and a tagged null: with `keep_tags = false` the
projection does not return, whatever the bound on the stack depth, so
`cbor_to_cjson` is not total. -/
theorem cbor_to_cjson_not_total :
    ∀ fuel, cbor_to_cjson fuel (.array [.uint 1, .tag 0 (.ctrl 22)]) false = none := by
  intro fuel
  cases fuel with
  | zero => rfl
  | succ k =>
    cases k with
    | zero => rfl
    | succ k =>
      simp [cbor_to_cjson, array_loop, cbor_to_cjson_tag_discard]

/-! ## Byte strings (C3, C4) -/

/-- C3, at the byte strings `[0x01, 0xFF]` and `[]`: the JSON string is the hex
text of the item's whole CBOR serialisation, header byte included, each byte
written without zero padding: `0x421ff` and `0x40`, where the claim has
`0x01ff` and `0x`. -/
theorem cbor_to_cjson_bytestring_example (fuel : Nat) (keep_tags : Bool) :
    cbor_to_cjson (fuel + 1) (.bytestring [0x01, 0xFF]) keep_tags
        = some (.String (cstr "0x421ff")) ∧
    cbor_to_cjson (fuel + 1) (.bytestring []) keep_tags = some (.String (cstr "0x40")) :=
  ⟨rfl, rfl⟩

/-- C4, at the bytes `[0x01, 0xFF]`: `to_hex_string` writes `0x1ff`, five
characters, because `%x` does not pad the byte `0x01` to two digits; the claim
has `0x01ff`, six characters. -/
theorem to_hex_string_example :
    to_hex_string [0x01, 0xFF] 2 = cstr "0x1ff" ∧
    (to_hex_string [0x01, 0xFF] 2).length = 5 ∧
    (to_hex_string [0x01, 0xFF] 2).length ≠ 2 + 2 * 2 := by
  decide

/-! ## Integers (C5, C6) -/

/-- C5 as stated fails: for the raw magnitude `2 ^ 53` the value
`-2 ^ 53 - 1` is not a double; the `int64_t` of line 51 is converted to the
double that `cJSON_CreateNumber` takes and the node projects to the number
`-2 ^ 53`. -/
theorem cbor_to_cjson_negint_counterexample :
    2 ^ 53 < 2 ^ 64 ∧
    cbor_to_cjson 1 (.negint (2 ^ 53)) false = some (.Number (.integer (-(2 ^ 53)))) ∧
    ∀ fuel, cbor_to_cjson fuel (.negint (2 ^ 53)) false
      ≠ some (.Number (.integer (-(2 ^ 53 : Nat) - 1))) := by
  refine ⟨by decide, rfl, fun fuel => ?_⟩
  cases fuel with
  | zero => simp [cbor_to_cjson]
  | succ k =>
    rw [show cbor_to_cjson (k + 1) (.negint (2 ^ 53)) false
      = some (.Number (.integer (-(2 ^ 53)))) from rfl]
    simp

/-- The cast of line 51 wraps: the raw magnitude `2 ^ 64 - 1` (the integer
`-2 ^ 64`, which is a double) is cast to the `int64_t` value `-1`, and the node
projects to the number `0`. -/
theorem cbor_to_cjson_negint_cast_wraps :
    2 ^ 64 - 1 < 2 ^ 64 ∧
    cbor_to_cjson 1 (.negint (2 ^ 64 - 1)) false = some (.Number (.integer 0)) ∧
    ∀ fuel, cbor_to_cjson fuel (.negint (2 ^ 64 - 1)) false
      ≠ some (.Number (.integer (-(2 ^ 64 - 1 : Nat) - 1))) := by
  refine ⟨by decide, rfl, fun fuel => ?_⟩
  cases fuel with
  | zero => simp [cbor_to_cjson]
  | succ k =>
    rw [show cbor_to_cjson (k + 1) (.negint (2 ^ 64 - 1)) false
      = some (.Number (.integer 0)) from rfl]
    simp

/-- C5, amended: for every raw magnitude `m < 2 ^ 53` the negative-integer
node projects to the JSON number `-m - 1`. -/
theorem cbor_to_cjson_negint_exact (fuel : Nat) (keep_tags : Bool) (m : Nat)
    (h : m < 2 ^ 53) :
    cbor_to_cjson (fuel + 1) (.negint m) keep_tags
      = some (.Number (.integer (-(m : Int) - 1))) := by
  have h64 : m % 2 ^ 64 = m := Nat.mod_eq_of_lt (by omega)
  have h1 : to_int64 (m : Int) = m := to_int64_of_range _ (by omega) (by omega)
  have h2 : to_int64 (-1 * (m : Int)) = -(m : Int) := by
    rw [to_int64_of_range _ (by omega) (by omega)]; omega
  have h3 : to_int64 (-(m : Int) - 1) = -(m : Int) - 1 :=
    to_int64_of_range _ (by omega) (by omega)
  have h4 : (-(m : Int) - 1).natAbs = m + 1 := by omega
  have h5 : -(m : Int) - 1 < 0 := by omega
  have h6 : round_to_double (m + 1) = m + 1 := round_to_double_of_le (m + 1) (by omega)
  have h7 : int64_to_double (-(m : Int) - 1) = .integer (-(m : Int) - 1) := by
    show CDouble.integer (if -(m : Int) - 1 < 0
      then -(round_to_double (-(m : Int) - 1).natAbs : Int)
      else round_to_double (-(m : Int) - 1).natAbs) = _
    rw [if_pos h5, h4]
    have h8 : -((round_to_double (m + 1) : Nat) : Int) = -(m : Int) - 1 := by
      rw [h6]
      push_cast
      omega
    exact congrArg CDouble.integer h8
  rw [cbor_to_cjson_negint, h64, h1, h2, h3, h7]

/-- Witness of the amended C5 at the spec's example: raw magnitude 10 gives
`-11`. -/
theorem cbor_to_cjson_negint_exact_witness :
    10 < 2 ^ 53 ∧
    cbor_to_cjson 1 (.negint 10) false = some (.Number (.integer (-(10 : Nat) - 1))) :=
  ⟨by decide, cbor_to_cjson_negint_exact 0 false 10 (by decide)⟩

/-- C6 as stated fails: `2 ^ 53 + 1` is below `2 ^ 64` but is not a double;
the unsigned-integer node holding it projects to the number `2 ^ 53`. -/
theorem cbor_to_cjson_uint_counterexample :
    2 ^ 53 + 1 < 2 ^ 64 ∧
    cbor_to_cjson 1 (.uint (2 ^ 53 + 1)) false = some (.Number (.integer (2 ^ 53))) ∧
    ∀ fuel, cbor_to_cjson fuel (.uint (2 ^ 53 + 1)) false
      ≠ some (.Number (.integer ((2 ^ 53 + 1 : Nat) : Int))) := by
  refine ⟨by decide, rfl, fun fuel => ?_⟩
  cases fuel with
  | zero => simp [cbor_to_cjson]
  | succ k =>
    rw [show cbor_to_cjson (k + 1) (.uint (2 ^ 53 + 1)) false
      = some (.Number (.integer (2 ^ 53))) from rfl]
    simp

/-- C6, amended: for every `n ≤ 2 ^ 53` the unsigned-integer node with value
`n` projects to the JSON number `n`. -/
theorem cbor_to_cjson_uint_exact (fuel : Nat) (keep_tags : Bool) (n : Nat)
    (h : n ≤ 2 ^ 53) :
    cbor_to_cjson (fuel + 1) (.uint n) keep_tags = some (.Number (.integer n)) := by
  have h64 : n % 2 ^ 64 = n := Nat.mod_eq_of_lt (by omega)
  rw [cbor_to_cjson_uint, h64, round_to_double_of_le n h]

/-- Witness of the amended C6: the value 100 projects to the number 100. -/
theorem cbor_to_cjson_uint_exact_witness :
    100 ≤ 2 ^ 53 ∧ cbor_to_cjson 1 (.uint 100) true = some (.Number (.integer (100 : Nat))) :=
  ⟨by decide, cbor_to_cjson_uint_exact 0 true 100 (by decide)⟩

/-! ## Maps (C7, C8) -/

/-- C7 as stated fails: a map with the text key `a` twice projects to an object
with the key `a` twice; cJSON appends members without looking for an existing
key. -/
theorem cbor_to_cjson_map_duplicate_keys :
    cbor_to_cjson 2 (.map [(.string (cstr "a"), .uint 1), (.string (cstr "a"), .uint 2)]) false
      = some (.Object [(cstr "a", .Number (.integer 1)), (cstr "a", .Number (.integer 2))]) ∧
    ∀ fuel obj,
      cbor_to_cjson fuel (.map [(.string (cstr "a"), .uint 1), (.string (cstr "a"), .uint 2)])
        false = some obj →
      ¬ (object_keys obj).Nodup := by
  refine ⟨rfl, fun fuel obj h => ?_⟩
  cases fuel with
  | zero => simp [cbor_to_cjson] at h
  | succ k =>
    cases k with
    | zero => simp [cbor_to_cjson, map_loop] at h
    | succ k =>
      rw [show cbor_to_cjson (k + 1 + 1)
          (.map [(.string (cstr "a"), .uint 1), (.string (cstr "a"), .uint 2)]) false
        = some (.Object [(cstr "a", .Number (.integer 1)), (cstr "a", .Number (.integer 2))])
        from rfl] at h
      simp only [Option.some.injEq] at h
      subst h
      simp [object_keys]

/-- C7, amended: when the projections of the values of a map node (whose size
is a `size_t`) return, the projection of the node returns an object in which
the keys of the members whose source key is not a definite text string are
pairwise distinct. -/
theorem cbor_to_cjson_map_surrogate_keys_nodup (fuel : Nat) (keep_tags : Bool)
    (pairs : List (CborItem × CborItem)) (values : List cJSON)
    (hsize : pairs.length < 2 ^ 64)
    (hvalues : List.Forall₂
      (fun pair value => cbor_to_cjson fuel pair.2 keep_tags = some value) pairs values) :
    ∃ obj, cbor_to_cjson (fuel + 1) (.map pairs) keep_tags = some obj ∧
      (((pairs.zip (object_keys obj)).filter
        (fun pk => !is_definite_string pk.1.1)).map Prod.snd).Nodup := by
  have hloop := map_loop_object (fun child => cbor_to_cjson fuel child keep_tags) pairs values
    0 [] (by omega) hvalues
  refine ⟨_, hloop, ?_⟩
  rw [map_loop_keys _ pairs 0 [] _ (by omega) hloop]
  exact (surrogate_keys_nodup pairs 0).1

/-- Witness of the amended C7: a map with one text key and two keys that are
not text. -/
theorem cbor_to_cjson_map_surrogate_keys_nodup_witness :
    ∃ obj,
      cbor_to_cjson 2
        (.map [(.string (cstr "k"), .uint 5), (.array [], .uint 6), (.uint 0, .uint 7)]) false
        = some obj ∧
      (((([(.string (cstr "k"), .uint 5), (.array [], .uint 6), (.uint 0, .uint 7)] :
          List (CborItem × CborItem)).zip (object_keys obj)).filter
        (fun pk => !is_definite_string pk.1.1)).map Prod.snd).Nodup :=
  cbor_to_cjson_map_surrogate_keys_nodup 1 false
    [(.string (cstr "k"), .uint 5), (.array [], .uint 6), (.uint 0, .uint 7)]
    [.Number (.integer 5), .Number (.integer 6), .Number (.integer 7)]
    (by decide)
    (List.Forall₂.cons rfl (List.Forall₂.cons rfl (List.Forall₂.cons rfl List.Forall₂.nil)))

/-- C8 as stated fails: for the text key `a`, zero byte, `b` the member's key
is `a`, not the first `min(3, 127)` bytes of the key's content. -/
theorem cbor_to_cjson_map_key_counterexample :
    cbor_to_cjson 2 (.map [(.string [0x61, 0x00, 0x62], .uint 5)]) true
      = some (.Object [([0x61], .Number (.integer 5))]) ∧
    ∀ fuel, cbor_to_cjson fuel (.map [(.string [0x61, 0x00, 0x62], .uint 5)]) true
      ≠ some (.Object [(List.take (min 3 127) [0x61, 0x00, 0x62], .Number (.integer 5))]) := by
  refine ⟨rfl, fun fuel => ?_⟩
  cases fuel with
  | zero => simp [cbor_to_cjson]
  | succ k =>
    cases k with
    | zero => simp [cbor_to_cjson, map_loop]
    | succ k =>
      rw [show cbor_to_cjson (k + 1 + 1) (.map [(.string [0x61, 0x00, 0x62], .uint 5)]) true
        = some (.Object [([0x61], .Number (.integer 5))]) from rfl]
      simp

/-- C8, amended: when the projections of the values of a map node (whose size
is a `size_t`) return `values`, the projection of the node returns the object
whose `i`-th member, in the original order, has the `i`-th of `values` and the
key `spec_map_key i k_i`: the first `min(len, 127)` bytes of the content of
`k_i` up to their first zero byte when `k_i` is a definite text string, and
`Surrogate key i` for every other key. -/
theorem cbor_to_cjson_map_members (fuel : Nat) (keep_tags : Bool)
    (pairs : List (CborItem × CborItem)) (values : List cJSON)
    (hsize : pairs.length < 2 ^ 64)
    (hvalues : List.Forall₂
      (fun pair value => cbor_to_cjson fuel pair.2 keep_tags = some value) pairs values) :
    cbor_to_cjson (fuel + 1) (.map pairs) keep_tags
      = some (.Object (List.zipWith
          (fun ip value => (spec_map_key ip.1 ip.2.1, value)) pairs.enum values)) := by
  have h := map_loop_object (fun child => cbor_to_cjson fuel child keep_tags) pairs values 0 []
    (by omega) hvalues
  simpa [List.enum] using h

/-- Witness of the amended C8 at the spec's example: the map with the text key
`k` for 5 and an array key for 6 projects to the object with `k` for 5 and
`Surrogate key 1` for 6. -/
theorem cbor_to_cjson_map_members_witness :
    cbor_to_cjson 2 (.map [(.string (cstr "k"), .uint 5), (.array [], .uint 6)]) false
      = some (.Object [(cstr "k", .Number (.integer 5)),
          (cstr "Surrogate key 1", .Number (.integer 6))]) :=
  (cbor_to_cjson_map_members 1 false [(.string (cstr "k"), .uint 5), (.array [], .uint 6)]
    [.Number (.integer 5), .Number (.integer 6)] (by decide)
    (List.Forall₂.cons rfl (List.Forall₂.cons rfl List.Forall₂.nil))).trans rfl

/-! ## Definite text strings (C9) -/

/-- C9 as stated fails: the text `a`, zero byte, `b` projects to the JSON
string `a`; what follows the zero byte is lost, since cJSON reads a
NUL-terminated string. -/
theorem cbor_to_cjson_string_counterexample :
    cbor_to_cjson 1 (.string [0x61, 0x00, 0x62]) false = some (.String [0x61]) ∧
    ∀ fuel, cbor_to_cjson fuel (.string [0x61, 0x00, 0x62]) false
      ≠ some (.String [0x61, 0x00, 0x62]) := by
  refine ⟨rfl, fun fuel => ?_⟩
  cases fuel with
  | zero => simp [cbor_to_cjson]
  | succ k =>
    rw [show cbor_to_cjson (k + 1) (.string [0x61, 0x00, 0x62]) false
      = some (.String [0x61]) from rfl]
    simp

/-- C9, amended: a definite text string whose content `s` has no zero byte
projects to the JSON string with content exactly `s`, whatever its length. -/
theorem cbor_to_cjson_string_exact (fuel : Nat) (keep_tags : Bool) (s : Bytes)
    (h : ∀ b ∈ s, b ≠ 0) :
    cbor_to_cjson (fuel + 1) (.string s) keep_tags = some (.String s) := by
  rw [cbor_to_cjson_string, c_str_append_zero s h]

/-- Witness of the amended C9 at the spec's example, the text `hello`. -/
theorem cbor_to_cjson_string_exact_witness :
    (∀ b ∈ cstr "hello", b ≠ 0) ∧
    cbor_to_cjson 1 (.string (cstr "hello")) false = some (.String (cstr "hello")) :=
  ⟨by decide, cbor_to_cjson_string_exact 0 false (cstr "hello") (by decide)⟩

/-! ## The entry point on a failed decode (C10) -/

/-- C10, at an empty blob (`cbor_load` fails with `CBOR_ERR_NODATA` and
returns `NULL`): after `sqlite3_result_error` the entry point does not return;
it goes on to call `cbor_to_cjson` on the `NULL` item, which is read through
at once. -/
theorem cbor_to_json_failed_decode_falls_through (fuel : Nat) (print : cJSON → Bytes)
    (keep_tags : Bool) :
    cbor_to_json fuel print keep_tags none CBOR_ERR_NODATA
      = ([.sqlite3_result_error (cstr "CBOR_ERR_NODATA"), .call_cbor_to_cjson none keep_tags],
         .null_dereference) :=
  rfl

/-! ## Error labels (C11, C12) -/

/-- C11, at the error kind `CBOR_ERR_SYNTAXERROR`: `encode_cbor_error` writes
the label `CBOR_ERR_NODATA` for it (line 153), the label of the different kind
`CBOR_ERR_NODATA`, so the labels of the five kinds are not pairwise distinct. -/
theorem encode_cbor_error_syntaxerror_label :
    CBOR_ERR_SYNTAXERROR ≠ CBOR_ERR_NODATA ∧
    encode_cbor_error CBOR_ERR_SYNTAXERROR = some ⟨9 + 11 + 1, cstr "CBOR_ERR_NODATA"⟩ ∧
    encode_cbor_error CBOR_ERR_NODATA = some ⟨9 + 6 + 1, cstr "CBOR_ERR_NODATA"⟩ ∧
    (cstr "CBOR_ERR_SYNTAXERROR").length = 11 + 9 ∧
    ¬ (recognised_errors.map
        (fun code => (encode_cbor_error code).map (fun msg => msg.text))).Nodup := by
  decide

/-- C12: an error code outside the five recognised kinds gets no label from
`encode_cbor_error`, and on such a failed decode the entry point reports the
generic message `Failed to decode CBOR`; each of the five recognised kinds gets
a label, the entry point reports that label, and the generic message is not
among what it reports. -/
theorem cbor_to_json_error_message (fuel : Nat) (print : cJSON → Bytes) (keep_tags : Bool)
    (item : Option CborItem) (code : Nat) :
    (code ∉ recognised_errors →
      encode_cbor_error code = none ∧
      (code ≠ CBOR_ERR_NONE →
        (cbor_to_json fuel print keep_tags item code).1.head?
          = some (.sqlite3_result_error (cstr "Failed to decode CBOR")))) ∧
    (code ∈ recognised_errors →
      ∃ err_msg, encode_cbor_error code = some err_msg ∧
        (cbor_to_json fuel print keep_tags item code).1.head?
          = some (.sqlite3_result_error err_msg.text) ∧
        ∀ event ∈ (cbor_to_json fuel print keep_tags item code).1,
          event ≠ .sqlite3_result_error (cstr "Failed to decode CBOR")) := by
  constructor
  · intro hcode
    simp only [recognised_errors, List.mem_cons, List.mem_singleton, List.not_mem_nil,
      or_false, not_or] at hcode
    obtain ⟨h1, h2, h3, h4, h5⟩ := hcode
    have hnone : encode_cbor_error code = none := by
      simp [encode_cbor_error, h1, h2, h3, h4, h5]
    refine ⟨hnone, fun hfailed => ?_⟩
    have hgeneric : c_str (cstr "Failed to decode CBOR" ++ [0]) = cstr "Failed to decode CBOR" := by
      decide
    cases item with
    | none => simp [cbor_to_json, hnone, hfailed, hgeneric]
    | some root =>
      cases hroot : cbor_to_cjson fuel root keep_tags <;>
        simp [cbor_to_json, hnone, hfailed, hgeneric, hroot]
  · intro hcode
    simp only [recognised_errors, List.mem_cons, List.mem_singleton, List.not_mem_nil,
      or_false] at hcode
    have key : ∀ (size : Nat) (label : Bytes),
        encode_cbor_error code = some ⟨size, label⟩ → code ≠ CBOR_ERR_NONE →
        c_str (label ++ [0]) = label → label ≠ cstr "Failed to decode CBOR" →
        ∃ err_msg, encode_cbor_error code = some err_msg ∧
          (cbor_to_json fuel print keep_tags item code).1.head?
            = some (.sqlite3_result_error err_msg.text) ∧
          ∀ event ∈ (cbor_to_json fuel print keep_tags item code).1,
            event ≠ .sqlite3_result_error (cstr "Failed to decode CBOR") := by
      intro size label hsome hfailed hlabel hne
      refine ⟨⟨size, label⟩, hsome, ?_, ?_⟩
      · cases item with
        | none => simp [cbor_to_json, hsome, hfailed, hlabel]
        | some root =>
          cases hroot : cbor_to_cjson fuel root keep_tags <;>
            simp [cbor_to_json, hsome, hfailed, hlabel, hroot]
      · cases item with
        | none =>
          simp [cbor_to_json, hsome, hfailed, hlabel]
          exact hne
        | some root =>
          cases hroot : cbor_to_cjson fuel root keep_tags <;>
            simp [cbor_to_json, hsome, hfailed, hlabel, hroot] <;> exact hne
    rcases hcode with h | h | h | h | h <;> subst h
    · exact key _ _ rfl (by decide) (by decide) (by decide)
    · exact key _ _ rfl (by decide) (by decide) (by decide)
    · exact key _ _ rfl (by decide) (by decide) (by decide)
    · exact key _ _ rfl (by decide) (by decide) (by decide)
    · exact key _ _ rfl (by decide) (by decide) (by decide)

/-- Witness of C12 at the unrecognised code 6 and at the recognised kind
`CBOR_ERR_MALFORMATED`, on a failed decode (`NULL` item). -/
theorem cbor_to_json_error_message_witness :
    (encode_cbor_error 6 = none ∧
      (cbor_to_json 0 (fun _ => []) false none 6).1.head?
        = some (.sqlite3_result_error (cstr "Failed to decode CBOR"))) ∧
    ∃ err_msg, encode_cbor_error CBOR_ERR_MALFORMATED = some err_msg ∧
      (cbor_to_json 0 (fun _ => []) false none CBOR_ERR_MALFORMATED).1.head?
        = some (.sqlite3_result_error err_msg.text) ∧
      ∀ event ∈ (cbor_to_json 0 (fun _ => []) false none CBOR_ERR_MALFORMATED).1,
        event ≠ .sqlite3_result_error (cstr "Failed to decode CBOR") :=
  ⟨⟨((cbor_to_json_error_message 0 (fun _ => []) false none 6).1 (by decide)).1,
    ((cbor_to_json_error_message 0 (fun _ => []) false none 6).1 (by decide)).2 (by decide)⟩,
   (cbor_to_json_error_message 0 (fun _ => []) false none CBOR_ERR_MALFORMATED).2 (by decide)⟩

/-! ## Tagged values with `keep_tags = true` (C13) -/

/-- C13 as stated fails: the tag number `2 ^ 53 + 1` is not a double; the
member `tag` of the object carries the number `2 ^ 53`. -/
theorem cbor_to_cjson_tag_keep_counterexample :
    cbor_to_cjson 2 (.tag (2 ^ 53 + 1) (.uint 0)) true
      = some (.Object [(cstr "tag", .Number (.integer (2 ^ 53))),
          (cstr "item", .Number (.integer 0))]) ∧
    ∀ fuel, cbor_to_cjson fuel (.tag (2 ^ 53 + 1) (.uint 0)) true
      ≠ some (.Object [(cstr "tag", .Number (.integer ((2 ^ 53 + 1 : Nat) : Int))),
          (cstr "item", .Number (.integer 0))]) := by
  refine ⟨rfl, fun fuel => ?_⟩
  cases fuel with
  | zero => simp [cbor_to_cjson]
  | succ k =>
    cases k with
    | zero => simp [cbor_to_cjson]
    | succ k =>
      rw [show cbor_to_cjson (k + 1 + 1) (.tag (2 ^ 53 + 1) (.uint 0)) true
        = some (.Object [(cstr "tag", .Number (.integer (2 ^ 53))),
            (cstr "item", .Number (.integer 0))]) from rfl]
      simp

/-- C13, amended: for a tagged node with tag number `t ≤ 2 ^ 53` whose wrapped
child projects to `child` with `keep_tags = true`, the projection with
`keep_tags = true` returns the object with exactly two members, in this order:
`tag` with the number `t`, and `item` with `child`. -/
theorem cbor_to_cjson_tag_keep (fuel : Nat) (tag_value : Nat) (tagged_item : CborItem)
    (child : cJSON) (htag : tag_value ≤ 2 ^ 53)
    (hchild : cbor_to_cjson fuel tagged_item true = some child) :
    cbor_to_cjson (fuel + 1) (.tag tag_value tagged_item) true
      = some (.Object [(cstr "tag", .Number (.integer tag_value)), (cstr "item", child)]) := by
  have h64 : tag_value % 2 ^ 64 = tag_value := Nat.mod_eq_of_lt (by omega)
  have htagkey : c_str (cstr "tag" ++ [0]) = cstr "tag" := by decide
  have hitemkey : c_str (cstr "item" ++ [0]) = cstr "item" := by decide
  simp only [cbor_to_cjson, hchild, if_true, cJSON_AddItemToObject, cJSON_CreateNumber,
    uint64_to_double, h64, round_to_double_of_le tag_value htag, htagkey, hitemkey,
    List.nil_append, List.cons_append]

/-- Witness of the amended C13 at the spec's example: tag 2 wrapping 100 gives
the object with `tag` for 2 and `item` for 100. -/
theorem cbor_to_cjson_tag_keep_witness :
    2 ≤ 2 ^ 53 ∧
    cbor_to_cjson 1 (.uint 100) true = some (.Number (.integer 100)) ∧
    cbor_to_cjson 2 (.tag 2 (.uint 100)) true
      = some (.Object [(cstr "tag", .Number (.integer (2 : Nat))),
          (cstr "item", .Number (.integer 100))]) :=
  ⟨by decide, rfl, cbor_to_cjson_tag_keep 1 2 (.uint 100) (.Number (.integer 100))
    (by decide) rfl⟩

/-! ## Arrays (C14) -/

/-- C14, at the array holding tag 2 wrapping 100: with `keep_tags = false` the
call of line 77 on the tagged element never returns (line 116), so the array's
projection returns under no bound on the stack depth, where the claim has the
JSON array of the element's projection; with `keep_tags = true` the same array
projects to the array of the one object. -/
theorem cbor_to_cjson_array_tagged_element :
    (∀ fuel, cbor_to_cjson fuel (.array [.tag 2 (.uint 100)]) false = none) ∧
    cbor_to_cjson 3 (.array [.tag 2 (.uint 100)]) true
      = some (.Array [.Object [(cstr "tag", .Number (.integer 2)),
          (cstr "item", .Number (.integer 100))]]) := by
  refine ⟨fun fuel => ?_, rfl⟩
  cases fuel with
  | zero => rfl
  | succ k => simp [cbor_to_cjson, array_loop, cbor_to_cjson_tag_discard]

/-- The array case on the projections of the elements: when they return
`values`, the projection of the node returns the JSON array of `values`: the
same length, the `i`-th element the projection of the `i`-th element, in the
original order. -/
theorem cbor_to_cjson_array_elements (fuel : Nat) (keep_tags : Bool)
    (items : List CborItem) (values : List cJSON)
    (hvalues : List.Forall₂
      (fun item value => cbor_to_cjson fuel item keep_tags = some value) items values) :
    cbor_to_cjson (fuel + 1) (.array items) keep_tags = some (.Array values) ∧
    values.length = items.length := by
  have h := array_loop_elements (fun child => cbor_to_cjson fuel child keep_tags) items values []
    hvalues
  exact ⟨by simpa using h, hvalues.length_eq.symm⟩

/-- The array case at the spec's example: the array of 1, the text `a` and
true projects to the JSON array of 1, `a` and true. -/
theorem cbor_to_cjson_array_elements_witness :
    cbor_to_cjson 2 (.array [.uint 1, .string (cstr "a"), .ctrl CBOR_CTRL_TRUE]) false
      = some (.Array [.Number (.integer 1), .String (cstr "a"), .Bool true]) ∧
    ([.Number (.integer 1), .String (cstr "a"), .Bool true] : List cJSON).length
      = [CborItem.uint 1, .string (cstr "a"), .ctrl CBOR_CTRL_TRUE].length :=
  cbor_to_cjson_array_elements 1 false [.uint 1, .string (cstr "a"), .ctrl CBOR_CTRL_TRUE]
    [.Number (.integer 1), .String (cstr "a"), .Bool true]
    (List.Forall₂.cons rfl (List.Forall₂.cons rfl (List.Forall₂.cons rfl List.Forall₂.nil)))

/-! ## Float and control values, chunked strings (C15, C16) -/

/-- C15: a control item holding false or true projects to the JSON bool of the
same truth value, one holding null to JSON null, one holding any other simple
value to the JSON string `Unsupported CBOR item: Control value`, and a float
item to the JSON number carrying its value; each of them returns. -/
theorem cbor_to_cjson_float_ctrl (fuel : Nat) (keep_tags : Bool) :
    cbor_to_cjson (fuel + 1) (.ctrl CBOR_CTRL_FALSE) keep_tags = some (.Bool false) ∧
    cbor_to_cjson (fuel + 1) (.ctrl CBOR_CTRL_TRUE) keep_tags = some (.Bool true) ∧
    cbor_to_cjson (fuel + 1) (.ctrl CBOR_CTRL_NULL) keep_tags = some .Null ∧
    (∀ value, value ≠ CBOR_CTRL_FALSE → value ≠ CBOR_CTRL_TRUE → value ≠ CBOR_CTRL_NULL →
      cbor_to_cjson (fuel + 1) (.ctrl value) keep_tags
        = some (.String (cstr "Unsupported CBOR item: Control value"))) ∧
    (∀ value, cbor_to_cjson (fuel + 1) (.float value) keep_tags = some (.Number value)) := by
  refine ⟨rfl, rfl, rfl, fun value hf ht hn => ?_, fun value => rfl⟩
  have hbool : cbor_is_bool value = false := by simp [cbor_is_bool, hf, ht]
  have hnull : cbor_is_null value = false := by simp [cbor_is_null, hn]
  have htext : c_str (cstr "Unsupported CBOR item: Control value" ++ [0])
      = cstr "Unsupported CBOR item: Control value" := by decide
  simp [cbor_to_cjson, hbool, hnull, cJSON_CreateString, htext]

/-- C16: a chunked text string projects to the JSON string
`Unsupported CBOR item: Chunked string`, whatever its chunks are. -/
theorem cbor_to_cjson_string_chunked (fuel : Nat) (keep_tags : Bool) (chunks : List Bytes) :
    cbor_to_cjson (fuel + 1) (.string_chunked chunks) keep_tags
      = some (.String (cstr "Unsupported CBOR item: Chunked string")) := by
  have htext : c_str (cstr "Unsupported CBOR item: Chunked string" ++ [0])
      = cstr "Unsupported CBOR item: Chunked string" := by decide
  simp [cbor_to_cjson, cJSON_CreateString, htext]

/-! ## The two policies on trees without tags (C17) -/

/-- C17: on a tree that holds no tagged node the two policies agree, at every
bound on the stack depth, and the projection returns. -/
theorem cbor_to_cjson_keep_tags_agree (item : CborItem) (hfree : tag_free item = true) :
    (∀ fuel, cbor_to_cjson fuel item true = cbor_to_cjson fuel item false) ∧
    ∃ fuel json, cbor_to_cjson fuel item true = some json ∧
      cbor_to_cjson fuel item false = some json := by
  refine ⟨fun fuel => cbor_to_cjson_keep_tags_irrelevant fuel item hfree, ?_⟩
  obtain ⟨json, hjson⟩ := cbor_to_cjson_keep_tags_returns (sizeOf item) item (le_refl _)
  exact ⟨sizeOf item, json, hjson,
    (cbor_to_cjson_keep_tags_irrelevant (sizeOf item) item hfree) ▸ hjson⟩

/-- Witness of C17: a map in an array, without tags. -/
theorem cbor_to_cjson_keep_tags_agree_witness :
    (∀ fuel, cbor_to_cjson fuel (.array [.uint 1, .map [(.string (cstr "k"), .ctrl 22)]]) true
      = cbor_to_cjson fuel (.array [.uint 1, .map [(.string (cstr "k"), .ctrl 22)]]) false) ∧
    ∃ fuel json,
      cbor_to_cjson fuel (.array [.uint 1, .map [(.string (cstr "k"), .ctrl 22)]]) true
        = some json ∧
      cbor_to_cjson fuel (.array [.uint 1, .map [(.string (cstr "k"), .ctrl 22)]]) false
        = some json :=
  cbor_to_cjson_keep_tags_agree (.array [.uint 1, .map [(.string (cstr "k"), .ctrl 22)]])
    (by decide)

/-! ## Hex text of different byte strings (C18) -/

/-- C18, at the byte sequences `[0x01, 0x11]` and `[0x11, 0x01]`: they differ,
and `to_hex_string` writes `0x111` for both, because `%x` writes the byte
`0x01` as the single digit `1`. -/
theorem to_hex_string_collision :
    ([0x01, 0x11] : Bytes) ≠ [0x11, 0x01] ∧
    to_hex_string [0x01, 0x11] 2 = cstr "0x111" ∧
    to_hex_string [0x11, 0x01] 2 = cstr "0x111" ∧
    to_hex_string [0x01, 0x11] 2 = to_hex_string [0x11, 0x01] 2 := by
  decide

/-! ## Size of the object built for a map (C19) -/

/-- C19, at the map of one entry, the text key `k` for tag 2 wrapping 100:
with `keep_tags = false` the call of line 98 on the tagged value never returns
(line 116), so no object is built, under any bound on the stack depth, where
the claim has an object of one member; with `keep_tags = true` the same map
projects to an object of one member. -/
theorem cbor_to_cjson_map_tagged_value :
    (∀ fuel,
      cbor_to_cjson fuel (.map [(.string (cstr "k"), .tag 2 (.uint 100))]) false = none) ∧
    cbor_to_cjson 3 (.map [(.string (cstr "k"), .tag 2 (.uint 100))]) true
      = some (.Object [(cstr "k", .Object [(cstr "tag", .Number (.integer 2)),
          (cstr "item", .Number (.integer 100))])]) := by
  refine ⟨fun fuel => ?_, rfl⟩
  cases fuel with
  | zero => rfl
  | succ k => simp [cbor_to_cjson, map_loop, cbor_to_cjson_tag_discard]

/-- The map case on the projections of the values: when the projections of
the values of a map node with `n` entries return `values`, the projection of
the node returns an object with exactly `n` members, one per entry in the
original order (their values are `values`), and every key in it is at most 127
bytes long. -/
theorem cbor_to_cjson_map_size_and_keys (fuel : Nat) (keep_tags : Bool)
    (pairs : List (CborItem × CborItem)) (values : List cJSON)
    (hvalues : List.Forall₂
      (fun pair value => cbor_to_cjson fuel pair.2 keep_tags = some value) pairs values) :
    ∃ members, cbor_to_cjson (fuel + 1) (.map pairs) keep_tags = some (.Object members) ∧
      members.length = pairs.length ∧
      members.map Prod.snd = values ∧
      ∀ key ∈ object_keys (.Object members), key.length ≤ 127 := by
  have hloop := map_loop_members (fun child => cbor_to_cjson fuel child keep_tags) pairs values
    0 [] hvalues
  obtain ⟨hlen, hsnd, hkeys⟩ :=
    map_members_shape pairs values 0 (fun child => cbor_to_cjson fuel child keep_tags) hvalues
  refine ⟨_, hloop, by simpa using hlen, by simpa using hsnd, fun key hkey => ?_⟩
  simp only [object_keys, List.nil_append, List.mem_map] at hkey
  obtain ⟨member, hmem, rfl⟩ := hkey
  exact hkeys member hmem

/-- The map case at a map of two entries, the first with a text key of 200
bytes: it projects to an object of two members whose keys are at most 127
bytes long. -/
theorem cbor_to_cjson_map_size_and_keys_witness :
    ∃ members,
      cbor_to_cjson 2
        (.map [(.string (List.replicate 200 0x61), .uint 5), (.array [], .uint 6)]) true
        = some (.Object members) ∧
      members.length
        = [(CborItem.string (List.replicate 200 0x61), CborItem.uint 5),
            (.array [], .uint 6)].length ∧
      members.map Prod.snd = [.Number (.integer 5), .Number (.integer 6)] ∧
      ∀ key ∈ object_keys (.Object members), key.length ≤ 127 :=
  cbor_to_cjson_map_size_and_keys 1 true
    [(.string (List.replicate 200 0x61), .uint 5), (.array [], .uint 6)]
    [.Number (.integer 5), .Number (.integer 6)]
    (List.Forall₂.cons rfl (List.Forall₂.cons rfl List.Forall₂.nil))

/-! ## Sizes of the allocated buffers (C20) -/

/-- C20: the text that `to_hex_string` writes for `length` bytes has at most
`2 + 2 * length` characters, so with its terminator it fits the
`2 + 2 * length + 1` bytes allocated; each of the five error kinds has a label,
and the label that `encode_cbor_error` writes fits, with its terminator, the
size allocated in its branch. -/
theorem buffers_not_overrun :
    (∀ (str : Bytes) (length : Nat),
      (to_hex_string str length).length ≤ 2 + 2 * length ∧
      (to_hex_string str length).length + 1 ≤ to_hex_string_malloc length) ∧
    (∀ (code : Nat) (msg : Allocated),
      encode_cbor_error code = some msg → msg.text.length + 1 ≤ msg.size) ∧
    (encode_cbor_error CBOR_ERR_NOTENOUGHDATA).map (fun msg => msg.size) = some (9 + 13 + 1) ∧
    (encode_cbor_error CBOR_ERR_NODATA).map (fun msg => msg.size) = some (9 + 6 + 1) ∧
    (encode_cbor_error CBOR_ERR_MALFORMATED).map (fun msg => msg.size) = some (9 + 11 + 1) ∧
    (encode_cbor_error CBOR_ERR_MEMERROR).map (fun msg => msg.size) = some (9 + 8 + 1) ∧
    (encode_cbor_error CBOR_ERR_SYNTAXERROR).map (fun msg => msg.size) = some (9 + 11 + 1) := by
  refine ⟨fun str length => ?_, fun code msg h => ?_, rfl, rfl, rfl, rfl, rfl⟩
  · have hdigits := hex_digits_length (str.take length)
    have htake : (str.take length).length ≤ length := by
      rw [List.length_take]; omega
    have h0x : (cstr "0x").length = 2 := by decide
    have hlen : (to_hex_string str length).length ≤ 2 + 2 * length := by
      unfold to_hex_string
      rw [List.length_append, h0x]
      omega
    exact ⟨hlen, by unfold to_hex_string_malloc; omega⟩
  · unfold encode_cbor_error at h
    split_ifs at h <;> (simp only [Option.some.injEq] at h; subst h; decide)

end CborToJson
